import Mathlib

/-!
# Verification of the rtsper topic / cluster / allocator core

A shallow embedding of the rtsper RTSP relay core, translated from the Go
source:

* `pkg/topic/topic.go` — the `Manager`, `Topic`, session structures, the
  bounded inbound channel with drop-oldest backpressure, and grace-timer
  driven topic close;
* `pkg/rtspsrv/server.go` — the RTSP handler callbacks (`OnAnnounce`,
  `OnSetup`, `OnPlay`) and their status codes;
* `pkg/cluster` (cluster.go) — rendezvous-hash owner selection over
  xxHash64, draining, CSV construction;
* `pkg/udpalloc/allocator.go` — the even/odd UDP port-pair allocator.

Go channels are modelled as a bounded queue plus a `closed` flag; a
non-blocking `select` send on a closed channel panics in Go, which the model
renders as `Option.none`.  Go maps are modelled as association lists in
insertion order (`lookupKey` / `upsert` / `removeKey` mirror map read,
insert and delete).  Machine integers are modelled as `Nat`, with explicit
reduction `% 2^64` in the hash arithmetic where overflow matters.
Concurrency is modelled by interleaving whole critical sections: every
manager operation in the source holds the manager mutex for its entire
body, so a trace of operations is a sequence of atomic steps.
-/

namespace Rtsper

/-! ## Association-list model of Go maps -/

/-- Go map read `v, ok := m[k]`. -/
def lookupKey {α : Type} (k : String) : List (String × α) → Option α
  | [] => none
  | (k', v) :: rest => if k' = k then some v else lookupKey k rest

/-- Go map insert `m[k] = v`: replaces the entry when the key is present,
otherwise appends it. -/
def upsert {α : Type} (k : String) (v : α) : List (String × α) → List (String × α)
  | [] => [(k, v)]
  | (k', v') :: rest => if k' = k then (k, v) :: rest else (k', v') :: upsert k v rest

/-- Go map delete `delete(m, k)`. -/
def removeKey {α : Type} (k : String) : List (String × α) → List (String × α)
  | [] => []
  | (k', v) :: rest => if k' = k then rest else (k', v) :: removeKey k rest

/-! ## Packets, channels, sessions (`pkg/topic/topic.go`) -/

/-- Model of `InboundPacket` from topic.go: a track id and the raw RTP bytes. -/
structure InboundPacket where
  track : Int
  raw : List Nat
deriving DecidableEq

/-- A Go buffered channel of `*InboundPacket`: capacity, current buffer
(oldest first), and whether `close` has been called on it. -/
structure Chan where
  cap : Nat
  buf : List InboundPacket
  closed : Bool
deriving DecidableEq

/-- Non-blocking send `select { case ch <- pkt: ...; default: ... }`.
On a closed channel the send case is chosen and panics (`none`).
Otherwise `some (true, _)` when the buffer has room (send case) and
`some (false, _)` when it is full (default case). -/
def chanTrySend (c : Chan) (pkt : InboundPacket) : Option (Bool × Chan) :=
  if c.closed then none
  else if c.buf.length < c.cap then some (true, { c with buf := c.buf ++ [pkt] })
  else some (false, c)

/-- Non-blocking receive `select { case <-ch: ...; default: ... }`, used for
drop-oldest.  Its net effect on the channel state is to pop the oldest
buffered element when one exists (on a closed empty channel the receive case
is ready and yields the zero value, leaving the buffer empty). -/
def chanDropOldest (c : Chan) : Chan :=
  { c with buf := c.buf.tail }

/-- Model of `PublisherSession` (id plus a cancellation handle; we record whether the
context has been cancelled). -/
structure PublisherSession where
  id : String
  cancelled : Bool
deriving DecidableEq

/-- Model of `NewPublisherSession`. -/
def newPublisherSession (id : String) : PublisherSession :=
  { id := id, cancelled := false }

/-- Model of `SubscriberSession`: id, cancellation handle, and the bounded packet
queue (`make(chan *InboundPacket, queueSize)`). -/
structure SubscriberSession where
  id : String
  cancelled : Bool
  queue : Chan
deriving DecidableEq

/-- Model of `NewSubscriberSession`. -/
def newSubscriberSession (id : String) (queueSize : Nat) : SubscriberSession :=
  { id := id, cancelled := false, queue := { cap := queueSize, buf := [], closed := false } }

/-- Model of `SubscriberSession.Enqueue` and the identical per-subscriber enqueue in
`Topic.dispatcher`: non-blocking send; on full, drop the oldest element and
retry the non-blocking send once.  The subscriber queue is never closed, so
no panic case arises. -/
def subEnqueue (q : Chan) (pkt : InboundPacket) : Bool × Chan :=
  if q.buf.length < q.cap then (true, { q with buf := q.buf ++ [pkt] })
  else
    let q1 := chanDropOldest q
    if q1.buf.length < q1.cap then (true, { q1 with buf := q1.buf ++ [pkt] })
    else (false, q1)

/-! ## Topics and the manager -/

/-- Model of `Config` from topic.go (the fields the core logic reads; ports and the
grace duration do not affect the state transitions modelled here). -/
structure Config where
  maxPublishers : Nat
  maxSubscribersPerTopic : Nat
  publisherQueueSize : Nat
  subscriberQueueSize : Nat
deriving DecidableEq

/-- Model of `Topic` from topic.go.  `chIn` is the inbound channel `in`; `stream` is
the opaque `*gortsplib.ServerStream` handle (modelled as an opaque number);
`graceArmed` records whether the grace `time.AfterFunc` timer is pending. -/
structure Topic where
  name : String
  publisher : Option PublisherSession
  stream : Option Nat
  subscribers : List (String × SubscriberSession)
  chIn : Chan
  closed : Bool
  graceArmed : Bool
deriving DecidableEq

/-- Model of `NewTopic`. -/
def newTopic (name : String) (cfg : Config) : Topic :=
  { name := name, publisher := none, stream := none, subscribers := [],
    chIn := { cap := cfg.publisherQueueSize, buf := [], closed := false },
    closed := false, graceArmed := false }

/-- Model of `Topic.HasPublisher`. -/
def Topic.hasPublisher (t : Topic) : Bool :=
  t.publisher.isSome

/-- Model of `Topic.SetPublisher`: assign the publisher and stop a pending grace
timer. -/
def Topic.setPublisher (t : Topic) (p : PublisherSession) : Topic :=
  { t with publisher := some p, graceArmed := false }

/-- Model of `Topic.RemovePublisher`: when a publisher is present, cancel its context,
clear the slot, drop the stream and arm the grace timer; otherwise return
unchanged (the early `return` in the source, which does not arm the timer). -/
def Topic.removePublisher (t : Topic) : Topic :=
  match t.publisher with
  | none => t
  | some _ => { t with publisher := none, stream := none, graceArmed := true }

/-- Model of `Topic.PublisherID`. -/
def Topic.publisherID (t : Topic) : String :=
  match t.publisher with
  | none => ""
  | some p => p.id

/-- Model of `Topic.AddSubscriber` (map insert keyed by subscriber id). -/
def Topic.addSubscriber (t : Topic) (s : SubscriberSession) : Topic :=
  { t with subscribers := upsert s.id s t.subscribers }

/-- Model of `Topic.RemoveSubscriber`: cancel and delete when present. -/
def Topic.removeSubscriber (t : Topic) (id : String) : Topic :=
  { t with subscribers := removeKey id t.subscribers }

/-- Model of `Topic.Close`: idempotent; cancels the publisher and subscriber contexts,
closes the inbound channel and clears the subscriber set.  It does **not**
clear the publisher slot, does not touch the grace timer, and nothing ever
removes the topic from the manager map. -/
def Topic.close (t : Topic) : Topic :=
  if t.closed then t
  else { t with closed := true, chIn := { t.chIn with closed := true }, subscribers := [] }

/-- Model of `Manager` from topic.go: the topic map, the configuration and the global
active-publisher counter. -/
structure Manager where
  topics : List (String × Topic)
  cfg : Config
  publisherCount : Nat
deriving DecidableEq

/-- Model of `NewManager`. -/
def newManager (cfg : Config) : Manager :=
  { topics := [], cfg := cfg, publisherCount := 0 }

/-- The error results of registration, from the `Err*` values in topic.go. -/
inductive RegError where
  | maxPublishers
  | topicHasPublisher
  | topicMaxSubscribers
  | noActivePublisher
deriving DecidableEq

/-- Model of `Manager.RegisterPublisher`.  Returns the error (if any) and the
resulting state. -/
def registerPublisher (m : Manager) (name : String) (pub : PublisherSession) :
    Option RegError × Manager :=
  if m.cfg.maxPublishers ≤ m.publisherCount then (some .maxPublishers, m)
  else
    match lookupKey name m.topics with
    | some t =>
      if t.hasPublisher then (some .topicHasPublisher, m)
      else
        (none, { m with
            topics := upsert name (t.setPublisher pub) m.topics
            publisherCount := m.publisherCount + 1 })
    | none =>
      (none, { m with
          topics := upsert name ((newTopic name m.cfg).setPublisher pub) m.topics
          publisherCount := m.publisherCount + 1 })

/-- Model of `Manager.UnregisterPublisher`: apply `RemovePublisher` on the topic when
it exists, then decrement the counter when positive.  Note the decrement
happens even if the topic held no publisher. -/
def unregisterPublisher (m : Manager) (name : String) : Manager :=
  match lookupKey name m.topics with
  | none => m
  | some t =>
    { m with topics := upsert name t.removePublisher m.topics,
             publisherCount := if 0 < m.publisherCount then m.publisherCount - 1
                               else m.publisherCount }

/-- Model of `Manager.RegisterSubscriber`. -/
def registerSubscriber (m : Manager) (name : String) (sub : SubscriberSession) :
    Option RegError × Manager :=
  match lookupKey name m.topics with
  | some t =>
    if m.cfg.maxSubscribersPerTopic ≤ t.subscribers.length then (some .topicMaxSubscribers, m)
    else (none, { m with topics := upsert name (t.addSubscriber sub) m.topics })
  | none => (some .noActivePublisher, m)

/-- Model of `Manager.UnregisterSubscriber`. -/
def unregisterSubscriber (m : Manager) (name id : String) : Manager :=
  match lookupKey name m.topics with
  | none => m
  | some t => { m with topics := upsert name (t.removeSubscriber id) m.topics }

/-- Model of `Manager.SetTopicStream`. -/
def setTopicStream (m : Manager) (name : String) (st : Nat) : Manager :=
  match lookupKey name m.topics with
  | none => m
  | some t => { m with topics := upsert name { t with stream := some st } m.topics }

/-- Model of `Manager.GetTopicStream`. -/
def getTopicStream (m : Manager) (name : String) : Option Nat :=
  match lookupKey name m.topics with
  | none => none
  | some t => t.stream

/-- Model of `TopicStatus` entries of `Manager.Status`. -/
structure TopicStatus where
  name : String
  hasPublisher : Bool
  publisherID : String
  subscriberCount : Nat
deriving DecidableEq

/-- Model of `StatusJSON`. -/
structure StatusJSON where
  topics : List TopicStatus
  publisherCount : Nat
deriving DecidableEq

/-- Model of `Manager.Status`. -/
def status (m : Manager) : StatusJSON :=
  { publisherCount := m.publisherCount,
    topics := m.topics.map fun kt =>
      { name := kt.2.name, hasPublisher := kt.2.hasPublisher,
        publisherID := kt.2.publisherID, subscriberCount := kt.2.subscribers.length } }

/-- Model of `Manager.Shutdown`: close every topic (entries stay in the map). -/
def shutdown (m : Manager) : Manager :=
  { m with topics := m.topics.map fun kt => (kt.1, kt.2.close) }

/-- Model of `Manager.PublishPacket`.  `none` models a Go run-time panic (a send on a
closed channel); `some (delivered, m')` models a normal return.  The function
uses only non-blocking channel operations, so it never awaits subscriber
consumption. -/
def publishPacketM (m : Manager) (name : String) (pkt : InboundPacket) :
    Option (Bool × Manager) :=
  match lookupKey name m.topics with
  | none => some (false, m)
  | some t =>
    match chanTrySend t.chIn pkt with
    | none => none
    | some (true, c') =>
      some (true, { m with topics := upsert name { t with chIn := c' } m.topics })
    | some (false, _) =>
      let c1 := chanDropOldest t.chIn
      match chanTrySend c1 pkt with
      | none => none
      | some (r, c2) =>
        some (r, { m with topics := upsert name { t with chIn := c2 } m.topics })

/-! ## Operation traces on the manager

The manager mutex makes each operation atomic, so the concurrent behaviours
of the source are the interleavings of these steps.  The grace timer armed by
`RemovePublisher` invokes `Topic.Close` when it fires; `graceFire` is enabled
exactly while the timer is pending (`SetPublisher` stops it).  A `publish`
step that panics crashes the process; modelling it as a stutter step only
adds behaviours, so invariants proved over these traces cover the source. -/

inductive Op where
  | regPub (name pubId : String)
  | unregPub (name : String)
  | regSub (name subId : String) (queueSize : Nat)
  | unregSub (name id : String)
  | graceFire (name : String)
  | publish (name : String) (pkt : InboundPacket)
  | shutdown
deriving DecidableEq

/-- One atomic manager step. -/
def step (m : Manager) : Op → Manager
  | .regPub name pubId => (registerPublisher m name (newPublisherSession pubId)).2
  | .unregPub name => unregisterPublisher m name
  | .regSub name subId qsz => (registerSubscriber m name (newSubscriberSession subId qsz)).2
  | .unregSub name id => unregisterSubscriber m name id
  | .graceFire name =>
    match lookupKey name m.topics with
    | some t =>
      if t.graceArmed then
        { m with topics := upsert name { t.close with graceArmed := false } m.topics }
      else m
    | none => m
  | .publish name pkt =>
    match publishPacketM m name pkt with
    | some (_, m') => m'
    | none => m
  | .shutdown => shutdown m

/-- Run a trace from a fresh manager. -/
def run (cfg : Config) (ops : List Op) : Manager :=
  ops.foldl step (newManager cfg)

/-! ## The RTSP handler (`pkg/rtspsrv/server.go`)

`serverHandler` keeps two per-session maps and a fixed subscriber queue
size.  Sessions are identified here by opaque string ids (the source keys
the maps by `*gortsplib.ServerSession` pointers and derives session ids by
formatting that pointer).  RTSP status codes are their numeric values. -/

structure Handler where
  sessTopic : List (String × String)
  sessIsPub : List (String × Bool)
  subscriberQSz : Nat
deriving DecidableEq

/-- The handler built in `Server.Start`: empty session maps and the literal
`subscriberQSz: 256` (the configuration's `SubscriberQueueSize` is not
consulted). -/
def startHandler : Handler :=
  { sessTopic := [], sessIsPub := [], subscriberQSz := 256 }

/-- Model of `strings.TrimPrefix(path, "/")`: cut one leading slash if present. -/
def trimLeadingSlash (p : String) : String :=
  match p.data with
  | '/' :: rest => String.mk rest
  | _ => p

/-- One character of the topic-name regexp `[A-Za-z0-9_-]`. -/
def wordChar (c : Char) : Bool :=
  c.isAlphanum || c = '_' || c = '-'

/-- Model of `topicNameRe.MatchString`, the anchored regexp `^[A-Za-z0-9_-]+$`. -/
def validTopicName (s : String) : Bool :=
  !s.isEmpty && s.data.all wordChar

/-- The result of a handler callback: RTSP status code plus updated handler
and manager state. -/
structure HandlerResult where
  statusCode : Nat
  handler : Handler
  mgr : Manager
deriving DecidableEq

/-- Model of `serverHandler.OnAnnounce`: extract the topic name, validate it (400 on
failure), register a publisher (400 on rejection), create the ServerStream
(opaque handle `st`), store it on the topic and record the session as a
publisher. -/
def onAnnounce (h : Handler) (m : Manager) (sid : String) (path : String) (st : Nat) :
    HandlerResult :=
  let topicName := trimLeadingSlash path
  if !validTopicName topicName then { statusCode := 400, handler := h, mgr := m }
  else
    match registerPublisher m topicName (newPublisherSession sid) with
    | (some _, m') => { statusCode := 400, handler := h, mgr := m' }
    | (none, m') =>
      let m'' := setTopicStream m' topicName st
      { statusCode := 200
        handler := { h with
          sessTopic := upsert sid topicName h.sessTopic
          sessIsPub := upsert sid true h.sessIsPub }
        mgr := m'' }

/-- Model of `serverHandler.OnSetup`: return the topic's stream with 200 when one
exists, else 404.  The source reads nothing from the SETUP context except
the path — in particular the negotiated transport (`isUDP`) is ignored. -/
def onSetup (_h : Handler) (m : Manager) (path : String) (_isUDP : Bool) : Nat :=
  let topicName := trimLeadingSlash path
  match getTopicStream m topicName with
  | some _ => 200
  | none => 404

/-- Model of `serverHandler.OnPlay`: create a subscriber session with queue size
`h.subscriberQSz` (no topic-name validation is performed), register it
(503 on rejection) and record the session as a subscriber. -/
def onPlay (h : Handler) (m : Manager) (sid : String) (path : String) : HandlerResult :=
  let topicName := trimLeadingSlash path
  let sub := newSubscriberSession sid h.subscriberQSz
  match registerSubscriber m topicName sub with
  | (some _, m') => { statusCode := 503, handler := h, mgr := m' }
  | (none, m') =>
    { statusCode := 200
      handler := { h with
        sessTopic := upsert sid topicName h.sessTopic
        sessIsPub := upsert sid false h.sessIsPub }
      mgr := m' }

/-! ## The UDP port-pair allocator (`pkg/udpalloc/allocator.go`)

`reserved` is the set of reserved ports (the map `port -> PacketConn`; the
socket handles themselves carry no logic relevant here).  Whether a
`net.ListenPacket` bind succeeds is decided by the environment, modelled as
an oracle `bindOk : Nat → Bool` supplied per `ReservePair` call. -/

structure Allocator where
  start : Nat
  endPort : Nat
  reserved : List Nat
deriving DecidableEq

/-- Model of `NewAllocator`: rejects a non-positive or empty range, then coerces an
odd `start` up by one.  (Go `int` can be negative; with `Nat` the
non-positive inputs are exactly the zero ones.) -/
def newAllocator (start endPort : Nat) : Option Allocator :=
  if start = 0 || endPort = 0 || endPort < start then none
  else
    let start := if start % 2 ≠ 0 then start + 1 else start
    some { start := start, endPort := endPort, reserved := [] }

/-- The scan loop of `ReservePair`: try even ports `p, p+2, …` up to
`endPort`; skip a port already reserved; bind RTP on `p` and RTCP on `p+1`
(if either bind fails, the successful one is closed and neither is
reserved); on success reserve both and return the base.  The `fuel`
parameter only bounds the recursion; `reservePair` passes enough fuel for
the whole range, so exhaustion coincides with the `p > end` exit. -/
def reserveScan (a : Allocator) (bindOk : Nat → Bool) : Nat → Nat → Option (Nat × Allocator)
  | 0, _ => none
  | fuel + 1, p =>
    if a.endPort < p then none
    else if p ∈ a.reserved then reserveScan a bindOk fuel (p + 2)
    else if bindOk p && bindOk (p + 1) then
      some (p, { a with reserved := p :: (p + 1) :: a.reserved })
    else reserveScan a bindOk fuel (p + 2)

/-- Model of `Allocator.ReservePair`.  `none` is the `"no available ports"` error (the
Go version then leaves the allocator untouched). -/
def reservePair (a : Allocator) (bindOk : Nat → Bool) : Option (Nat × Allocator) :=
  reserveScan a bindOk (a.endPort + 2) a.start

/-- The `release` closure returned by `ReservePair` for base `p`: close and
remove both ports of the pair. -/
def releasePair (a : Allocator) (p : Nat) : Allocator :=
  { a with reserved := a.reserved.filter fun q => !(q = p || q = p + 1) }

/-- Model of `Allocator.GetConn` reports whether a port is reserved (the stored
socket handle is opaque). -/
def getConn (a : Allocator) (port : Nat) : Bool :=
  port ∈ a.reserved

/-! ## xxHash64 (`github.com/cespare/xxhash/v2`, as used by the cluster)

`Cluster.Owner` scores candidates with `xxhash.Sum64String(n + "|" + topic)`.
The hash is reproduced here over byte lists, with 64-bit arithmetic as `Nat`
reduced modulo `2^64`.  The seed is 0 (`Sum64`). -/

def m64 : Nat := 2 ^ 64

def xxPrime1 : Nat := 11400714785074694791
def xxPrime2 : Nat := 14029467366897019727
def xxPrime3 : Nat := 1609587929392839161
def xxPrime4 : Nat := 9650029242287828579
def xxPrime5 : Nat := 2870177450012600261

def add64 (x y : Nat) : Nat := (x + y) % m64

def mul64 (x y : Nat) : Nat := (x * y) % m64

/-- Rotate left on 64 bits (arguments below `2^64`, `0 < r < 64`). -/
def rotl64 (x r : Nat) : Nat := ((x <<< r) % m64) ||| (x >>> (64 - r))

/-- Little-endian value of a byte list (first byte least significant). -/
def le64 (bs : List Nat) : Nat := bs.foldr (fun b acc => b + 256 * acc) 0

def xxRound (acc input : Nat) : Nat :=
  mul64 (rotl64 (add64 acc (mul64 input xxPrime2)) 31) xxPrime1

def xxMergeRound (h v : Nat) : Nat :=
  add64 (mul64 (h ^^^ xxRound 0 v) xxPrime1) xxPrime4

def xxAvalanche (h : Nat) : Nat :=
  let h := h ^^^ (h >>> 33)
  let h := mul64 h xxPrime2
  let h := h ^^^ (h >>> 29)
  let h := mul64 h xxPrime3
  h ^^^ (h >>> 32)

/-- The 32-byte accumulator loop (runs while at least 32 bytes remain). -/
def xxBulk : Nat → Nat → Nat → Nat → List Nat →
    (Nat × Nat × Nat × Nat) × List Nat
  | v1, v2, v3, v4, b0 :: b1 :: b2 :: b3 :: b4 :: b5 :: b6 :: b7 ::
      b8 :: b9 :: b10 :: b11 :: b12 :: b13 :: b14 :: b15 ::
      b16 :: b17 :: b18 :: b19 :: b20 :: b21 :: b22 :: b23 ::
      b24 :: b25 :: b26 :: b27 :: b28 :: b29 :: b30 :: b31 :: rest =>
    xxBulk (xxRound v1 (le64 [b0, b1, b2, b3, b4, b5, b6, b7]))
      (xxRound v2 (le64 [b8, b9, b10, b11, b12, b13, b14, b15]))
      (xxRound v3 (le64 [b16, b17, b18, b19, b20, b21, b22, b23]))
      (xxRound v4 (le64 [b24, b25, b26, b27, b28, b29, b30, b31])) rest
  | v1, v2, v3, v4, bs => ((v1, v2, v3, v4), bs)

/-- The 8-byte tail rounds (runs while at least 8 bytes remain). -/
def xxTail8 : Nat → List Nat → Nat × List Nat
  | h, b0 :: b1 :: b2 :: b3 :: b4 :: b5 :: b6 :: b7 :: rest =>
    xxTail8 (add64 (mul64 (rotl64 (h ^^^ xxRound 0 (le64 [b0, b1, b2, b3, b4, b5, b6, b7])) 27)
      xxPrime1) xxPrime4) rest
  | h, bs => (h, bs)

/-- The single 4-byte tail step (at most one). -/
def xxTail4 : Nat → List Nat → Nat × List Nat
  | h, b0 :: b1 :: b2 :: b3 :: rest =>
    (add64 (mul64 (rotl64 (h ^^^ mul64 (le64 [b0, b1, b2, b3]) xxPrime1) 23) xxPrime2)
      xxPrime3, rest)
  | h, bs => (h, bs)

/-- The per-byte tail steps. -/
def xxTail1 : Nat → List Nat → Nat
  | h, b :: rest => xxTail1 (mul64 (rotl64 (h ^^^ mul64 b xxPrime5) 11) xxPrime1) rest
  | h, [] => h

/-- Model of `xxhash.Sum64` with seed 0 over a byte list. -/
def xxh64 (input : List Nat) : Nat :=
  let n := input.length
  let hrest : Nat × List Nat :=
    if 32 ≤ n then
      let br := xxBulk (add64 xxPrime1 xxPrime2) xxPrime2 0 (m64 - xxPrime1) input
      match br with
      | ((v1, v2, v3, v4), rest) =>
        let h := add64 (add64 (add64 (rotl64 v1 1) (rotl64 v2 7)) (rotl64 v3 12)) (rotl64 v4 18)
        let h := xxMergeRound h v1
        let h := xxMergeRound h v2
        let h := xxMergeRound h v3
        let h := xxMergeRound h v4
        (h, rest)
    else (xxPrime5, input)
  let h := add64 hrest.1 n
  let hr8 := xxTail8 h hrest.2
  let hr4 := xxTail4 hr8.1 hr8.2
  xxAvalanche (xxTail1 hr4.1 hr4.2)

/-! ## The cluster (`pkg/cluster`, cluster.go)

Go strings are byte sequences; node and topic names are `List Nat` here so
that the hash input `n + "|" + topic` is exact.  `draining` is the set of
nodes whose draining flag is true. -/

structure Cluster where
  nodes : List (List Nat)
  selfNode : List Nat
  draining : List (List Nat)
deriving DecidableEq

/-- Byte of `'|'`. -/
def barByte : Nat := 124

/-- Byte of `','`. -/
def commaByte : Nat := 44

/-- The loop of `Cluster.Owner`: skip draining nodes, score each remaining
node with `xxhash.Sum64String(n + "|" + topic)` and keep the first highest
scorer (`best == "" || score > bestScore`).  The empty string is the
"no owner" sentinel. -/
def ownerLoop (draining : List (List Nat)) (topic : List Nat) :
    List (List Nat) → List Nat → Nat → List Nat
  | [], best, _ => best
  | n :: rest, best, bestScore =>
    if n ∈ draining then ownerLoop draining topic rest best bestScore
    else
      let score := xxh64 (n ++ barByte :: topic)
      if best = [] || bestScore < score then ownerLoop draining topic rest n score
      else ownerLoop draining topic rest best bestScore

/-- Model of `Cluster.Owner`. -/
def owner (c : Cluster) (topic : List Nat) : List Nat :=
  ownerLoop c.draining topic c.nodes [] 0

/-- Model of `Cluster.IsSelf`. -/
def isSelf (c : Cluster) (node : List Nat) : Bool :=
  node = c.selfNode

/-- Model of `Cluster.SetDraining`: toggle the flag for known nodes, ignore unknown
names. -/
def setDraining (c : Cluster) (node : List Nat) (d : Bool) : Cluster :=
  if node ∈ c.nodes then
    if d then
      { c with draining := if node ∈ c.draining then c.draining else node :: c.draining }
    else { c with draining := c.draining.filter fun q => q ≠ node }
  else c

/-- The byte is one of the ASCII white-space characters trimmed by
`strings.TrimSpace`.  (TrimSpace trims Unicode white space; on the inputs
considered here — no multi-byte white-space sequences at field edges — the
two notions coincide.) -/
def isGoSpaceByte (b : Nat) : Bool :=
  b = 9 || b = 10 || b = 11 || b = 12 || b = 13 || b = 32

/-- Model of `strings.TrimSpace` on bytes. -/
def trimSpaceBytes (bs : List Nat) : List Nat :=
  ((bs.dropWhile isGoSpaceByte).reverse.dropWhile isGoSpaceByte).reverse

/-- Model of `strings.Split(s, ",")`. -/
def splitOnComma : List Nat → List (List Nat)
  | [] => [[]]
  | b :: rest =>
    if b = commaByte then [] :: splitOnComma rest
    else
      match splitOnComma rest with
      | [] => [[b]]
      | field :: fields => (b :: field) :: fields

/-- Model of `cluster.NewFromCSV`: split the node list on commas, trim each part,
skip empties; error when no node remains; an empty self name defaults to the
first node (the source then stores `self` on the cluster in either branch of
its membership test). -/
def newFromCSV (nodeList selfName : List Nat) : Option Cluster :=
  if nodeList = [] then none
  else
    let nodes := ((splitOnComma nodeList).map trimSpaceBytes).filter fun p => p ≠ []
    match nodes with
    | [] => none
    | n0 :: _ =>
      some { nodes := nodes
             selfNode := if selfName = [] then n0 else selfName
             draining := [] }

/-! ## Derived notions used by the verification -/

/-- The number of topics currently holding a publisher (the "sum over topics
of their active publishers": each slot holds at most one). -/
def totalActivePublishers (m : Manager) : Nat :=
  m.topics.countP fun kt => kt.2.hasPublisher

/-- An `unregPub` step is well-behaved when the targeted topic (if it
exists) currently holds a publisher — which is how the RTSP router invokes
`UnregisterPublisher` (once, from the closing publisher session). -/
def unregOk (m : Manager) : Op → Bool
  | .unregPub name =>
    match lookupKey name m.topics with
    | some t => t.hasPublisher
    | none => true
  | _ => true

/-- A trace is well-behaved when every `unregPub` in it is. -/
def goodRun (m : Manager) : List Op → Bool
  | [] => true
  | op :: ops => unregOk m op && goodRun (step m op) ops

/-- The rendezvous score of a node for a topic,
`xxhash.Sum64String(n + "|" + topic)`. -/
def score (topic n : List Nat) : Nat :=
  xxh64 (n ++ barByte :: topic)

/-- Reference definition for comparison with `owner`, following the spec's
words "return the node with maximum score" together with the source's
observable tie rule: the first list element attaining the maximal score.
`owner` is proved equal to this function on the non-draining sublist. -/
def firstArgmax (sc : List Nat → Nat) : List (List Nat) → List Nat
  | [] => []
  | n :: rest =>
    let r := firstArgmax sc rest
    if r = [] then n
    else if sc n < sc r then r
    else n

/-- The non-draining candidates, in configured order. -/
def nonDraining (c : Cluster) : List (List Nat) :=
  c.nodes.filter fun n => !decide (n ∈ c.draining)

/-- Proof helper: the value `ownerLoop` computes over remaining candidates
`cands` when `best`/`bs` have already been accumulated — the first argmax of
`cands` if it strictly beats `bs`, else `best`. -/
def accResult (sc : List Nat → Nat) (cands : List (List Nat)) (best : List Nat) (bs : Nat) :
    List Nat :=
  if firstArgmax sc cands ≠ [] ∧ bs < sc (firstArgmax sc cands) then firstArgmax sc cands
  else best

/-- Operations on the allocator: a `ReservePair` call (with the bind oracle
the environment answers it with) or an invocation of a release handle. -/
inductive AllocOp where
  | reserve (bindOk : Nat → Bool)
  | release (base : Nat)

/-- One allocator step (a failed `ReservePair` leaves the state unchanged). -/
def allocStep (a : Allocator) : AllocOp → Allocator
  | .reserve bindOk =>
    match reservePair a bindOk with
    | some (_, a') => a'
    | none => a
  | .release p => releasePair a p

/-- Release handles are created by `ReservePair` only for the even base of a
successfully bound pair; an allocator trace is well-behaved when every
release uses such a base. -/
def goodAllocOp : AllocOp → Bool
  | .release p => p % 2 = 0
  | .reserve _ => true

/-- The pairing invariant of the reserved set: an even member's odd partner
is present, and an odd member is the partner of the even port below it. -/
def PairedReserved (r : List Nat) : Prop :=
  ∀ q ∈ r, (q % 2 = 0 → q + 1 ∈ r) ∧ (q % 2 = 1 → 0 < q ∧ q - 1 ∈ r)

/-- The manager state after a successful `publishPacket` delivery: the
topic's inbound buffer gains `pkt` at the back, after dropping the oldest
element if the buffer was full. -/
def pubResult (m : Manager) (name : String) (t : Topic) (pkt : InboundPacket) : Manager :=
  let buf' := (if t.chIn.buf.length < t.chIn.cap then t.chIn.buf else t.chIn.buf.tail) ++ [pkt]
  { m with topics := upsert name { t with chIn := { t.chIn with buf := buf' } } m.topics }

/-! ## Concrete instances used by witnesses and counterexamples -/

/-- Configuration with `MaxPublishers = 1` (spec scenario S2). -/
def cfgMax1 : Config := { maxPublishers := 1, maxSubscribersPerTopic := 5
                          publisherQueueSize := 16, subscriberQueueSize := 8 }

/-- Configuration with `MaxPublishers = 2`. -/
def cfgMax2 : Config := { maxPublishers := 2, maxSubscribersPerTopic := 5
                          publisherQueueSize := 16, subscriberQueueSize := 8 }

/-- The spec's S1 configuration sizes (`MaxPublishers=5`,
`MaxSubscribersPerTopic=5`, `PublisherQueueSize=16`,
`SubscriberQueueSize=8`). -/
def cfgS1 : Config := { maxPublishers := 5, maxSubscribersPerTopic := 5
                        publisherQueueSize := 16, subscriberQueueSize := 8 }

/-- A manager whose topic `a` holds a publisher while the global counter is
at `MaxPublishers`. -/
def mgrAtCap : Manager := run cfgMax1 [.regPub "a" "p1"]

/-- The topic value held by `mgrAtCap` at key `a`. -/
def topicAtCap : Topic := (newTopic "a" cfgMax1).setPublisher (newPublisherSession "p1")

/-- Register two publishers, unregister topic `a` twice (the second call
still decrements the counter), then register two more. -/
def opsUndercount : List Op :=
  [.regPub "a" "p1", .regPub "b" "p2", .unregPub "a", .unregPub "a",
   .regPub "c" "p3", .regPub "d" "p4"]

/-- A well-behaved trace: each unregister targets a topic holding a
publisher. -/
def opsGoodW : List Op := [.regPub "a" "p1", .unregPub "a", .regPub "b" "p2"]

/-- A manager with live topic `t` (occupied publisher slot, open channel). -/
def mgrLive : Manager := run cfgS1 [.regPub "t" "p1"]

/-- The topic value held by `mgrLive` at key `t`. -/
def topicLive : Topic := (newTopic "t" cfgS1).setPublisher (newPublisherSession "p1")

/-- Publisher registered, unregistered, grace timer fired: topic `t1` is
closed (its inbound channel too) but still present in the map. -/
def mgrClosed : Manager := run cfgS1 [.regPub "t1" "p1", .unregPub "t1", .graceFire "t1"]

/-- The topic value held by `mgrClosed` at key `t1`. -/
def topicClosed : Topic :=
  { name := "t1", publisher := none, stream := none, subscribers := []
    chIn := { cap := 16, buf := [], closed := true }, closed := true, graceArmed := false }

/-- An empty test packet. -/
def pkt0 : InboundPacket := { track := 0, raw := [] }

/-- State of `topicLive` after subscriber `s1` (queue size 256) registered via PLAY. -/
def topicLiveSub : Topic := topicLive.addSubscriber (newSubscriberSession "s1" 256)

/-- A full two-slot subscriber queue. -/
def qFull : Chan := { cap := 2, buf := [pkt0, pkt0], closed := false }

/-- Bytes of the node name `"RelayNodeAlpha1"`. -/
def relayNode1 : List Nat :=
  [82, 101, 108, 97, 121, 78, 111, 100, 101, 65, 108, 112, 104, 97, 49]

/-- Bytes of the node name `"D_JVCKfmuYFVYqn"`.  Its rendezvous key for the
topic `"topicone"` collides with `relayNode1`'s under xxHash64. -/
def relayNode2 : List Nat :=
  [68, 95, 74, 86, 67, 75, 102, 109, 117, 89, 70, 86, 89, 113, 110]

/-- Bytes of the topic name `"topicone"`. -/
def topicOne : List Nat := [116, 111, 112, 105, 99, 111, 110, 101]

/-- CSV `"RelayNodeAlpha1,D_JVCKfmuYFVYqn"`. -/
def csv12 : List Nat := relayNode1 ++ commaByte :: relayNode2

/-- CSV `"D_JVCKfmuYFVYqn,RelayNodeAlpha1"`. -/
def csv21 : List Nat := relayNode2 ++ commaByte :: relayNode1

/-- The cluster `NewFromCSV(csv12, "RelayNodeAlpha1")` produces. -/
def clusterC12 : Cluster :=
  { nodes := [relayNode1, relayNode2], selfNode := relayNode1, draining := [] }

/-- The cluster `NewFromCSV(csv21, "RelayNodeAlpha1")` produces: same member
set, opposite order. -/
def clusterC21 : Cluster :=
  { nodes := [relayNode2, relayNode1], selfNode := relayNode1, draining := [] }

/-- Bytes of `"srv1"`. -/
def srv1B : List Nat := [115, 114, 118, 49]

/-- Bytes of `"srv2"`. -/
def srv2B : List Nat := [115, 114, 118, 50]

/-- Bytes of the topic `"remote"` (owned by `srv2` in the two-node cluster
`srv1,srv2`, as in the spec's S6 scenario). -/
def remoteB : List Nat := [114, 101, 109, 111, 116, 101]

/-- A small allocator on the range `[41002, 41010]` as produced by
`newAllocator 41001 41010` (odd start coerced up). -/
def allocW : Allocator := { start := 41002, endPort := 41010, reserved := [] }

/-- Reserve two pairs with all binds succeeding. -/
def allocOpsW : List AllocOp := [.reserve (fun _ => true), .reserve (fun _ => true)]

/-! ## Helper lemmas on the association-list map model -/

theorem lookup_upsert {α : Type} (k k' : String) (v : α) (l : List (String × α)) :
    lookupKey k (upsert k' v l) = if k' = k then some v else lookupKey k l := by
  induction l with
  | nil => simp [upsert, lookupKey]
  | cons hd tl ih =>
    obtain ⟨k0, v0⟩ := hd
    by_cases h0 : k0 = k'
    · subst h0
      by_cases h1 : k0 = k <;> simp [upsert, lookupKey, h1]
    · by_cases h1 : k0 = k
      · subst h1
        have h2 : ¬ k' = k0 := fun h => h0 h.symm
        simp [upsert, lookupKey, h0, h2]
      · simp [upsert, lookupKey, h0, h1, ih]

theorem upsert_self {α : Type} {k : String} {t : α} {l : List (String × α)}
    (h : lookupKey k l = some t) : upsert k t l = l := by
  induction l with
  | nil => simp [lookupKey] at h
  | cons hd tl ih =>
    obtain ⟨k0, v0⟩ := hd
    by_cases h0 : k0 = k
    · subst h0
      simp [lookupKey] at h
      simp [upsert, h]
    · simp [lookupKey, h0] at h
      simp [upsert, h0, ih h]

theorem lookup_some_mem {α : Type} {k : String} {t : α} {l : List (String × α)}
    (h : lookupKey k l = some t) : (k, t) ∈ l := by
  induction l with
  | nil => simp [lookupKey] at h
  | cons hd tl ih =>
    obtain ⟨k0, v0⟩ := hd
    by_cases h0 : k0 = k
    · subst h0
      simp [lookupKey] at h
      simp [h]
    · simp [lookupKey, h0] at h
      exact List.mem_cons_of_mem _ (ih h)

theorem mem_upsert {α : Type} {x : String × α} {k : String} {v : α} {l : List (String × α)}
    (hx : x ∈ upsert k v l) : x = (k, v) ∨ x ∈ l := by
  induction l with
  | nil => simpa [upsert] using hx
  | cons hd tl ih =>
    obtain ⟨k0, v0⟩ := hd
    by_cases h0 : k0 = k
    · subst h0
      rcases (by simpa [upsert] using hx : x = (k0, v) ∨ x ∈ tl) with h | h
      · exact Or.inl h
      · exact Or.inr (List.mem_cons_of_mem _ h)
    · rcases (by simpa [upsert, h0] using hx : x = (k0, v0) ∨ x ∈ upsert k v tl) with h | h
      · exact Or.inr (by simp [h])
      · rcases ih h with h' | h'
        · exact Or.inl h'
        · exact Or.inr (List.mem_cons_of_mem _ h')

theorem upsert_eq_append {α : Type} {k : String} (v : α) {l : List (String × α)}
    (h : lookupKey k l = none) : upsert k v l = l ++ [(k, v)] := by
  induction l with
  | nil => simp [upsert]
  | cons hd tl ih =>
    obtain ⟨k0, v0⟩ := hd
    by_cases h0 : k0 = k
    · subst h0; simp [lookupKey] at h
    · simp [lookupKey, h0] at h
      simp [upsert, h0, ih h]

theorem countP_upsert {α : Type} (q : String × α → Bool) {k : String} (v : α)
    {t : α} {l : List (String × α)} (h : lookupKey k l = some t) :
    (upsert k v l).countP q + (if q (k, t) then 1 else 0)
      = l.countP q + (if q (k, v) then 1 else 0) := by
  induction l with
  | nil => simp [lookupKey] at h
  | cons hd tl ih =>
    obtain ⟨k0, v0⟩ := hd
    by_cases h0 : k0 = k
    · subst h0
      simp [lookupKey] at h
      subst h
      simp [upsert, List.countP_cons]
      omega
    · simp [lookupKey, h0] at h
      simp only [upsert, if_neg h0, List.countP_cons]
      have := ih h
      omega

/-! ## The publisher-counter invariant (guarded traces) -/

theorem close_publisher (t : Topic) : t.close.publisher = t.publisher := by
  unfold Topic.close
  split <;> rfl

theorem close_hasPublisher (t : Topic) : t.close.hasPublisher = t.hasPublisher := by
  simp [Topic.hasPublisher, close_publisher]

/-- The inductive invariant: the gating counter equals the number of topics
holding a publisher and stays within the configured cap. -/
def CntInv (cfg : Config) (m : Manager) : Prop :=
  m.cfg = cfg ∧ m.publisherCount = totalActivePublishers m ∧
    m.publisherCount ≤ cfg.maxPublishers

theorem hasPublisher_setPublisher (t : Topic) (p : PublisherSession) :
    (t.setPublisher p).hasPublisher = true := rfl

theorem hasPublisher_removePublisher (t : Topic) :
    t.removePublisher.hasPublisher = false := by
  unfold Topic.removePublisher
  rcases h : t.publisher with _ | p
  · simp [Topic.hasPublisher, h]
  · simp [Topic.hasPublisher]

theorem hasPublisher_addSubscriber (t : Topic) (s : SubscriberSession) :
    (t.addSubscriber s).hasPublisher = t.hasPublisher := rfl

theorem hasPublisher_removeSubscriber (t : Topic) (id : String) :
    (t.removeSubscriber id).hasPublisher = t.hasPublisher := rfl

theorem hasPublisher_chIn (t : Topic) (c : Chan) :
    ({ t with chIn := c } : Topic).hasPublisher = t.hasPublisher := rfl

theorem hasPublisher_closeGrace (t : Topic) :
    ({ t.close with graceArmed := false } : Topic).hasPublisher = t.hasPublisher := by
  simp [Topic.hasPublisher, close_publisher]

theorem cntInv_step {cfg : Config} {m : Manager} (op : Op) (hInv : CntInv cfg m)
    (hok : unregOk m op = true) : CntInv cfg (step m op) := by
  obtain ⟨hcfg, hcnt, hle⟩ := hInv
  subst hcfg
  simp only [totalActivePublishers] at hcnt
  cases op with
  | regPub name pid =>
    simp only [step, registerPublisher]
    split
    · exact ⟨rfl, by simpa [totalActivePublishers] using hcnt, hle⟩
    · rename_i hlt
      rw [not_le] at hlt
      rcases hl : lookupKey name m.topics with _ | t
      · simp only [hl]
        have happ := upsert_eq_append ((newTopic name m.cfg).setPublisher (newPublisherSession pid)) hl
        refine ⟨rfl, ?_, by simpa using hlt⟩
        simp [totalActivePublishers, happ, List.countP_append, hasPublisher_setPublisher]
        omega
      · simp only [hl]
        split
        · exact ⟨rfl, by simpa [totalActivePublishers] using hcnt, hle⟩
        · rename_i hnp
          rw [Bool.not_eq_true] at hnp
          have hc := countP_upsert (fun kt => kt.2.hasPublisher)
            (t.setPublisher (newPublisherSession pid)) hl
          simp only [hasPublisher_setPublisher, hnp, if_true, if_false] at hc
          refine ⟨rfl, ?_, by simpa using hlt⟩
          simp only [totalActivePublishers]
          simp at hc ⊢
          omega
  | unregPub name =>
    simp only [step, unregisterPublisher]
    rcases hl : lookupKey name m.topics with _ | t
    · exact ⟨rfl, by simpa [totalActivePublishers] using hcnt, hle⟩
    · simp only [hl]
      have hpub : t.hasPublisher = true := by
        simpa [unregOk, hl] using hok
      have hmem : (name, t) ∈ m.topics := lookup_some_mem hl
      have hpos : 0 < List.countP (fun kt => kt.2.hasPublisher) m.topics := by
        rw [List.countP_pos_iff]
        exact ⟨(name, t), hmem, hpub⟩
      have hc := countP_upsert (fun kt => kt.2.hasPublisher) t.removePublisher hl
      simp only [hasPublisher_removePublisher, hpub, if_true, if_false] at hc
      have h0 : 0 < m.publisherCount := by omega
      refine ⟨rfl, ?_, ?_⟩
      · simp only [totalActivePublishers]
        simp [h0] at hc ⊢
        omega
      · simp [h0]
        omega
  | regSub name sid qsz =>
    simp only [step, registerSubscriber]
    rcases hl : lookupKey name m.topics with _ | t
    · exact ⟨rfl, by simpa [totalActivePublishers] using hcnt, hle⟩
    · simp only [hl]
      split
      · exact ⟨rfl, by simpa [totalActivePublishers] using hcnt, hle⟩
      · have hc := countP_upsert (fun kt => kt.2.hasPublisher)
          (t.addSubscriber (newSubscriberSession sid qsz)) hl
        simp only [hasPublisher_addSubscriber] at hc
        refine ⟨rfl, ?_, hle⟩
        simp only [totalActivePublishers]
        simp at hc ⊢
        omega
  | unregSub name sid =>
    simp only [step, unregisterSubscriber]
    rcases hl : lookupKey name m.topics with _ | t
    · exact ⟨rfl, by simpa [totalActivePublishers] using hcnt, hle⟩
    · simp only [hl]
      have hc := countP_upsert (fun kt => kt.2.hasPublisher) (t.removeSubscriber sid) hl
      simp only [hasPublisher_removeSubscriber] at hc
      refine ⟨rfl, ?_, hle⟩
      simp only [totalActivePublishers]
      simp at hc ⊢
      omega
  | graceFire name =>
    simp only [step]
    rcases hl : lookupKey name m.topics with _ | t
    · exact ⟨rfl, by simpa [totalActivePublishers] using hcnt, hle⟩
    · simp only [hl]
      split
      · have hc := countP_upsert (fun kt => kt.2.hasPublisher)
          { t.close with graceArmed := false } hl
        simp only [hasPublisher_closeGrace] at hc
        refine ⟨rfl, ?_, hle⟩
        simp only [totalActivePublishers]
        simp at hc ⊢
        omega
      · exact ⟨rfl, by simpa [totalActivePublishers] using hcnt, hle⟩
  | publish name pkt =>
    simp only [step]
    rcases hp : publishPacketM m name pkt with _ | r
    · exact ⟨rfl, by simpa [totalActivePublishers] using hcnt, hle⟩
    · obtain ⟨b, m'⟩ := r
      simp only
      unfold publishPacketM at hp
      rcases hl : lookupKey name m.topics with _ | t
      · simp [hl] at hp
        obtain ⟨_, rfl⟩ := hp
        exact ⟨rfl, by simpa [totalActivePublishers] using hcnt, hle⟩
      · simp only [hl] at hp
        rcases hs : chanTrySend t.chIn pkt with _ | s
        · simp [hs] at hp
        · obtain ⟨b1, c1⟩ := s
          cases b1 with
          | true =>
            simp [hs] at hp
            obtain ⟨_, rfl⟩ := hp
            have hc := countP_upsert (fun kt => kt.2.hasPublisher) { t with chIn := c1 } hl
            simp only [hasPublisher_chIn] at hc
            refine ⟨rfl, ?_, hle⟩
            simp only [totalActivePublishers]
            simp at hc ⊢
            omega
          | false =>
            simp only [hs] at hp
            rcases hs2 : chanTrySend (chanDropOldest t.chIn) pkt with _ | s2
            · simp [hs2] at hp
            · obtain ⟨b2, c2⟩ := s2
              simp [hs2] at hp
              obtain ⟨_, rfl⟩ := hp
              have hc := countP_upsert (fun kt => kt.2.hasPublisher) { t with chIn := c2 } hl
              simp only [hasPublisher_chIn] at hc
              refine ⟨rfl, ?_, hle⟩
              simp only [totalActivePublishers]
              simp at hc ⊢
              omega
  | shutdown =>
    simp only [step, shutdown]
    refine ⟨rfl, ?_, hle⟩
    simp only [totalActivePublishers]
    rw [hcnt]
    simp [List.countP_map]
    exact (List.countP_congr fun kt _ => by simp [Function.comp, close_hasPublisher]).symm

theorem cntInv_run {cfg : Config} :
    ∀ (ops : List Op) (m : Manager), CntInv cfg m → goodRun m ops = true →
      CntInv cfg (ops.foldl step m)
  | [], m, hInv, _ => hInv
  | op :: ops, m, hInv, hgood => by
    rw [goodRun, Bool.and_eq_true] at hgood
    exact cntInv_run ops (step m op) (cntInv_step op hInv hgood.1) hgood.2

/-! ## Claim C1 — one publisher per topic -/

/-- C1 (amended): a `RegisterPublisher` call on a topic whose publisher slot
is occupied leaves the manager unchanged and is rejected — with
`ErrTopicHasPublisher` when the global counter is below `MaxPublishers`, and
with `ErrMaxPublishers` when the counter is already at the cap (the cap check
runs first).  Since a topic's publisher is a single optional slot, no
sequence of operations can give a topic two publishers. -/
theorem registerPublisher_occupied_spec (m : Manager) (name : String) (pub : PublisherSession)
    (t : Topic) (hl : lookupKey name m.topics = some t) (hp : t.hasPublisher = true) :
    registerPublisher m name pub =
      (some (if m.cfg.maxPublishers ≤ m.publisherCount then RegError.maxPublishers
             else RegError.topicHasPublisher), m) := by
  unfold registerPublisher
  split
  · rename_i h
    simp [h]
  · rename_i h
    simp [hl, hp, h]

/-- Witness for C1: on a manager below the publisher cap whose topic `t` is
occupied, a second registration returns `ErrTopicHasPublisher` and leaves the
state unchanged. -/
theorem registerPublisher_occupied_spec_witness :
    registerPublisher mgrLive "t" (newPublisherSession "p2")
      = (some RegError.topicHasPublisher, mgrLive) := by
  have h := registerPublisher_occupied_spec mgrLive "t" (newPublisherSession "p2") topicLive
    (by decide) (by decide)
  rwa [if_neg (by decide)] at h

/-- Counterexample to C1 as stated: with `MaxPublishers = 1`, registering a
second publisher on the occupied topic `a` returns `ErrMaxPublishers`, not
`ErrTopicHasPublisher`. -/
theorem registerPublisher_occupied_at_cap :
    lookupKey "a" mgrAtCap.topics = some topicAtCap ∧
    topicAtCap.hasPublisher = true ∧
    (registerPublisher mgrAtCap "a" (newPublisherSession "p2")).1 = some RegError.maxPublishers ∧
    (registerPublisher mgrAtCap "a" (newPublisherSession "p2")).1
      ≠ some RegError.topicHasPublisher := by
  decide

/-! ## Claim C2 — the global publisher cap -/

/-- Counterexample to C2 as stated: with `MaxPublishers = 2`, the trace
register(a), register(b), unregister(a), unregister(a), register(c),
register(d) leaves three topics holding publishers.  The second
`UnregisterPublisher("a")` finds the topic without a publisher but still
decrements the gating counter, which therefore undercounts. -/
theorem publisherCount_undercount :
    cfgMax2.maxPublishers = 2 ∧
    totalActivePublishers (run cfgMax2 opsUndercount) = 3 := by
  decide

/-- C2 (amended): along any trace whose `unregPub` steps only target topics
currently holding a publisher (as when driven by the RTSP router's session
close), the gating counter equals the number of topics holding a publisher,
and that number never exceeds `MaxPublishers`. -/
theorem publisherCount_invariant_guarded (cfg : Config) (ops : List Op)
    (hgood : goodRun (newManager cfg) ops = true) :
    (run cfg ops).publisherCount = totalActivePublishers (run cfg ops) ∧
    totalActivePublishers (run cfg ops) ≤ cfg.maxPublishers := by
  have h0 : CntInv cfg (newManager cfg) :=
    ⟨rfl, by simp [newManager, totalActivePublishers], by simp [newManager]⟩
  have h := cntInv_run ops (newManager cfg) h0 hgood
  simp only [run]
  refine ⟨h.2.1, ?_⟩
  have h1 := h.2.1
  have h2 := h.2.2
  omega

/-- Witness for C2: a concrete well-behaved trace under `MaxPublishers = 2`
satisfies the counter invariant. -/
theorem publisherCount_invariant_guarded_witness :
    (run cfgMax2 opsGoodW).publisherCount = totalActivePublishers (run cfgMax2 opsGoodW) ∧
    totalActivePublishers (run cfgMax2 opsGoodW) ≤ cfgMax2.maxPublishers :=
  publisherCount_invariant_guarded cfgMax2 opsGoodW (by decide)

/-! ## Claim C3 — publish into the bounded inbound channel -/

theorem lookup_map {α β : Type} (f : α → β) (k : String) (l : List (String × α)) :
    lookupKey k (l.map fun kt => (kt.1, f kt.2)) = (lookupKey k l).map f := by
  induction l with
  | nil => simp [lookupKey]
  | cons hd tl ih =>
    obtain ⟨k0, v0⟩ := hd
    by_cases h0 : k0 = k <;> simp [lookupKey, h0, ih]

theorem chanTrySend_bound {c : Chan} {pkt : InboundPacket} {b : Bool} {c' : Chan}
    (hs : chanTrySend c pkt = some (b, c')) (hc : c.buf.length ≤ c.cap) :
    c'.buf.length ≤ c'.cap := by
  unfold chanTrySend at hs
  split at hs
  · exact absurd hs (by simp)
  · split at hs
    · rename_i hlt
      obtain ⟨-, rfl⟩ := by simpa using hs
      simpa using hlt
    · obtain ⟨-, rfl⟩ := by simpa using hs
      exact hc

/-- Every topic's inbound buffer respects its capacity. -/
def ChanBound (m : Manager) : Prop :=
  ∀ name t, lookupKey name m.topics = some t → t.chIn.buf.length ≤ t.chIn.cap

theorem chanBound_upsert {m : Manager} (h : ChanBound m) {k : String} {v : Topic}
    (hv : v.chIn.buf.length ≤ v.chIn.cap) :
    ∀ name t, lookupKey name (upsert k v m.topics) = some t →
      t.chIn.buf.length ≤ t.chIn.cap := by
  intro name t hl
  rw [lookup_upsert] at hl
  split at hl
  · cases hl
    exact hv
  · exact h name t hl

theorem chanBound_step (m : Manager) (op : Op) (h : ChanBound m) : ChanBound (step m op) := by
  cases op with
  | regPub name pid =>
    simp only [step, registerPublisher]
    split
    · exact h
    · rcases hl : lookupKey name m.topics with _ | t
      · simp only [hl]
        exact chanBound_upsert h (by simp [newTopic, Topic.setPublisher])
      · simp only [hl]
        split
        · exact h
        · exact chanBound_upsert h (h name t hl)
  | unregPub name =>
    simp only [step, unregisterPublisher]
    rcases hl : lookupKey name m.topics with _ | t
    · exact h
    · simp only [hl]
      refine chanBound_upsert h ?_
      have hb := h name t hl
      unfold Topic.removePublisher
      rcases t.publisher with _ | p <;> simpa using hb
  | regSub name sid qsz =>
    simp only [step, registerSubscriber]
    rcases hl : lookupKey name m.topics with _ | t
    · exact h
    · simp only [hl]
      split
      · exact h
      · exact chanBound_upsert h (h name t hl)
  | unregSub name sid =>
    simp only [step, unregisterSubscriber]
    rcases hl : lookupKey name m.topics with _ | t
    · exact h
    · simp only [hl]
      exact chanBound_upsert h (h name t hl)
  | graceFire name =>
    simp only [step]
    rcases hl : lookupKey name m.topics with _ | t
    · exact h
    · simp only [hl]
      split
      · refine chanBound_upsert h ?_
        have hb := h name t hl
        simp only [Topic.close]
        split <;> simpa using hb
      · exact h
  | publish name pkt =>
    simp only [step]
    rcases hp : publishPacketM m name pkt with _ | r
    · exact h
    · obtain ⟨b, m'⟩ := r
      simp only
      unfold publishPacketM at hp
      rcases hl : lookupKey name m.topics with _ | t
      · simp [hl] at hp
        obtain ⟨-, rfl⟩ := hp
        exact h
      · simp only [hl] at hp
        rcases hs : chanTrySend t.chIn pkt with _ | s
        · simp [hs] at hp
        · obtain ⟨b1, c1⟩ := s
          cases b1 with
          | true =>
            simp [hs] at hp
            obtain ⟨-, rfl⟩ := hp
            exact chanBound_upsert h (chanTrySend_bound hs (h name t hl))
          | false =>
            simp only [hs] at hp
            rcases hs2 : chanTrySend (chanDropOldest t.chIn) pkt with _ | s2
            · simp [hs2] at hp
            · obtain ⟨b2, c2⟩ := s2
              simp [hs2] at hp
              obtain ⟨-, rfl⟩ := hp
              refine chanBound_upsert h (chanTrySend_bound hs2 ?_)
              have hb := h name t hl
              simp only [chanDropOldest]
              have := List.length_tail t.chIn.buf
              omega
  | shutdown =>
    intro name t hl
    simp only [step, shutdown] at hl
    rw [lookup_map] at hl
    rcases hl0 : lookupKey name m.topics with _ | t0
    · simp [hl0] at hl
    · rw [hl0] at hl
      simp at hl
      subst hl
      have hb := h name t0 hl0
      simp only [Topic.close]
      split <;> simpa using hb

theorem chanBound_run (cfg : Config) :
    ∀ (ops : List Op) (m : Manager), ChanBound m → ChanBound (ops.foldl step m)
  | [], _, h => h
  | op :: ops, m, h => chanBound_run cfg ops (step m op) (chanBound_step m op h)

/-- The per-call behaviour of `PublishPacket` on a live channel. -/
theorem publishPacket_call_spec (m : Manager) (name : String) (t : Topic) (pkt : InboundPacket)
    (hl : lookupKey name m.topics = some t) (hcl : t.chIn.closed = false)
    (hlen : t.chIn.buf.length ≤ t.chIn.cap) :
    (0 < t.chIn.cap → publishPacketM m name pkt = some (true, pubResult m name t pkt)) ∧
    (t.chIn.cap = 0 → publishPacketM m name pkt = some (false, m)) := by
  constructor
  · intro hcap
    by_cases hlt : t.chIn.buf.length < t.chIn.cap
    · simp [publishPacketM, hl, chanTrySend, hcl, hlt, pubResult]
    · have heq : t.chIn.buf.length = t.chIn.cap := by omega
      have htail : t.chIn.buf.length - 1 < t.chIn.cap := by omega
      simp [publishPacketM, hl, chanTrySend, hcl, hlt, chanDropOldest, htail, pubResult]
  · intro hcap
    have hbuf : t.chIn.buf = [] := List.length_eq_zero.mp (by omega)
    obtain ⟨tname, tpub, tstr, tsubs, tch, tcl, tgr⟩ := t
    obtain ⟨ccap, cbuf, ccl⟩ := tch
    simp only at hcap hcl hbuf
    subst hcap hcl hbuf
    simp [publishPacketM, hl, chanTrySend, chanDropOldest, upsert_self hl]

/-- C3: for a topic that exists with an open (not closed) inbound channel,
`PublishPacket` (i) appends the packet and returns `true` when the channel
has room; (ii) when full, drops the oldest element and retries exactly once,
returning `true` (always succeeding for positive capacity, and returning
`false` when still full, i.e. at capacity 0); and (iii) along every trace the
inbound buffer length never exceeds the capacity `PublisherQueueSize`.  The
model uses only the non-blocking branches of Go's `select`, mirroring that
the call never blocks on subscriber consumption. -/
theorem publishPacket_spec :
    (∀ (m : Manager) (name : String) (t : Topic) (pkt : InboundPacket),
      lookupKey name m.topics = some t → t.chIn.closed = false →
      t.chIn.buf.length ≤ t.chIn.cap →
      (0 < t.chIn.cap → publishPacketM m name pkt = some (true, pubResult m name t pkt)) ∧
      (t.chIn.cap = 0 → publishPacketM m name pkt = some (false, m))) ∧
    (∀ (cfg : Config) (ops : List Op) (name : String) (t : Topic),
      lookupKey name (run cfg ops).topics = some t →
      t.chIn.buf.length ≤ t.chIn.cap) := by
  constructor
  · exact publishPacket_call_spec
  · intro cfg ops name t hl
    have h0 : ChanBound (newManager cfg) := by
      intro name t hl
      simp [newManager, lookupKey] at hl
    exact chanBound_run cfg ops (newManager cfg) h0 name t hl

/-- Witness for C3: publishing to the live topic `t` of `mgrLive` delivers
the packet, and the topic reached by the registering trace respects the
channel bound. -/
theorem publishPacket_spec_witness :
    publishPacketM mgrLive "t" pkt0 = some (true, pubResult mgrLive "t" topicLive pkt0) ∧
    topicLive.chIn.buf.length ≤ topicLive.chIn.cap := by
  refine ⟨(publishPacket_spec.1 mgrLive "t" topicLive pkt0
    (by decide) (by decide) (by decide)).1 (by decide), ?_⟩
  exact publishPacket_spec.2 cfgS1 [.regPub "t" "p1"] "t" topicLive (by decide)

/-! ## Claim C4 — publish after topic close panics -/

/-- C4 fails on the code: after the grace timer fired, topic `t1` is closed
and its inbound channel is closed, but the entry is still in the map, so
`PublishPacket` reaches `select { case t.in <- pkt: ... }` — a send on a
closed channel, which panics at run time (`none` in the model).  This
contradicts the function's own documentation ("Returns false if topic
missing or closed") and the spec's "no panics in steady state". -/
theorem publishPacket_panics_on_closed_topic :
    lookupKey "t1" mgrClosed.topics = some topicClosed ∧
    topicClosed.closed = true ∧ topicClosed.chIn.closed = true ∧
    publishPacketM mgrClosed "t1" pkt0 = none := by
  decide

/-! ## Claim C10 — closed topics persist in the manager map -/

/-- C10: no operation removes a topic entry from the manager map (`Close`
clears the topic's contents, never the map entry); `Status` lists every
mapped topic; and `RegisterSubscriber` accepts a subscriber on any mapped
topic under the cap, closed or not — even though a closed topic's dispatcher
has exited and its inbound channel is closed. -/
theorem closed_topic_persists (m : Manager) (name : String) (t : Topic)
    (hl : lookupKey name m.topics = some t) :
    (∀ op, (lookupKey name (step m op).topics).isSome) ∧
    ((⟨t.name, t.hasPublisher, t.publisherID, t.subscribers.length⟩ : TopicStatus)
        ∈ (status m).topics) ∧
    (∀ sub, t.subscribers.length < m.cfg.maxSubscribersPerTopic →
      (registerSubscriber m name sub).1 = none) := by
  have hpres : ∀ (k : String) (v : Topic), (lookupKey name (upsert k v m.topics)).isSome := by
    intro k v
    rw [lookup_upsert]
    split
    · simp
    · simp [hl]
  refine ⟨?_, ?_, ?_⟩
  · intro op
    cases op with
    | regPub name' pid =>
      simp only [step, registerPublisher]
      split
      · simp [hl]
      · rcases hl' : lookupKey name' m.topics with _ | t'
        · simp only [hl']
          exact hpres _ _
        · simp only [hl']
          split
          · simp [hl]
          · exact hpres _ _
    | unregPub name' =>
      simp only [step, unregisterPublisher]
      rcases hl' : lookupKey name' m.topics with _ | t'
      · simp [hl]
      · simp only [hl']
        exact hpres _ _
    | regSub name' sid qsz =>
      simp only [step, registerSubscriber]
      rcases hl' : lookupKey name' m.topics with _ | t'
      · simp [hl]
      · simp only [hl']
        split
        · simp [hl]
        · exact hpres _ _
    | unregSub name' sid =>
      simp only [step, unregisterSubscriber]
      rcases hl' : lookupKey name' m.topics with _ | t'
      · simp [hl]
      · simp only [hl']
        exact hpres _ _
    | graceFire name' =>
      simp only [step]
      rcases hl' : lookupKey name' m.topics with _ | t'
      · simp [hl]
      · simp only [hl']
        split
        · exact hpres _ _
        · simp [hl]
    | publish name' pkt =>
      simp only [step]
      rcases hp : publishPacketM m name' pkt with _ | r
      · simp [hl]
      · obtain ⟨b, m'⟩ := r
        simp only
        unfold publishPacketM at hp
        rcases hl' : lookupKey name' m.topics with _ | t'
        · simp [hl'] at hp
          obtain ⟨-, rfl⟩ := hp
          simp [hl]
        · simp only [hl'] at hp
          rcases hs : chanTrySend t'.chIn pkt with _ | s
          · simp [hs] at hp
          · obtain ⟨b1, c1⟩ := s
            cases b1 with
            | true =>
              simp [hs] at hp
              obtain ⟨-, rfl⟩ := hp
              exact hpres _ _
            | false =>
              simp only [hs] at hp
              rcases hs2 : chanTrySend (chanDropOldest t'.chIn) pkt with _ | s2
              · simp [hs2] at hp
              · obtain ⟨b2, c2⟩ := s2
                simp [hs2] at hp
                obtain ⟨-, rfl⟩ := hp
                exact hpres _ _
    | shutdown =>
      simp only [step, shutdown]
      rw [lookup_map, hl]
      simp
  · simp only [status]
    exact List.mem_map.mpr ⟨(name, t), lookup_some_mem hl, rfl⟩
  · intro sub hcap
    simp [registerSubscriber, hl, Nat.not_le.mpr hcap]

/-- Witness for C10, at the closed topic `t1` of `mgrClosed`: the entry
survives a further registration step, `Status` lists it (no publisher, no
subscribers), and a new subscriber is accepted despite the topic being
closed. -/
theorem closed_topic_persists_witness :
    (lookupKey "t1" (step mgrClosed (.regSub "t1" "s1" 256)).topics).isSome ∧
    ((⟨topicClosed.name, topicClosed.hasPublisher, topicClosed.publisherID,
        topicClosed.subscribers.length⟩ : TopicStatus) ∈ (status mgrClosed).topics) ∧
    (registerSubscriber mgrClosed "t1" (newSubscriberSession "s1" 256)).1 = none := by
  have h := closed_topic_persists mgrClosed "t1" topicClosed (by decide)
  exact ⟨h.1 _, h.2.1, h.2.2 (newSubscriberSession "s1" 256) (by decide)⟩

/-! ## Claim C6 — subscriber queue capacity -/

/-- Counterexample to C6 as stated: with `SubscriberQueueSize = 8`
configured, the subscriber created by PLAY has a queue of capacity 256 — the
handler's hard-coded `subscriberQSz`, not the configured value. -/
theorem subscriber_queue_cap_fixed_256 :
    cfgS1.subscriberQueueSize = 8 ∧
    (onPlay startHandler mgrLive "s1" "/t").statusCode = 200 ∧
    ((lookupKey "t" (onPlay startHandler mgrLive "s1" "/t").mgr.topics).bind
        fun t => (lookupKey "s1" t.subscribers).map fun s => s.queue.cap) = some 256 ∧
    (256 : Nat) ≠ cfgS1.subscriberQueueSize := by
  decide

/-- C6 (amended): every subscriber session created on PLAY admission carries
a bounded queue whose capacity equals the handler's fixed `subscriberQSz`,
which `Server.Start` sets to the literal 256 regardless of the configured
`SubscriberQueueSize`; no enqueue operation grows a queue beyond its
capacity. -/
theorem onPlay_queue_capacity :
    (∀ (h : Handler) (m : Manager) (sid path : String),
      (onPlay h m sid path).statusCode = 200 →
      ∀ t, lookupKey (trimLeadingSlash path) (onPlay h m sid path).mgr.topics = some t →
        lookupKey sid t.subscribers = some (newSubscriberSession sid h.subscriberQSz)) ∧
    (∀ (sid : String) (qsz : Nat), (newSubscriberSession sid qsz).queue.cap = qsz) ∧
    startHandler.subscriberQSz = 256 ∧
    (∀ (q : Chan) (pkt : InboundPacket), q.buf.length ≤ q.cap →
      (subEnqueue q pkt).2.buf.length ≤ q.cap) := by
  refine ⟨?_, fun sid qsz => rfl, rfl, ?_⟩
  · intro h m sid path hst t ht
    simp only [onPlay] at hst ht
    rcases hr : registerSubscriber m (trimLeadingSlash path)
        (newSubscriberSession sid h.subscriberQSz) with ⟨e, m'⟩
    rcases e with _ | e
    · simp only [hr] at ht
      unfold registerSubscriber at hr
      rcases hl : lookupKey (trimLeadingSlash path) m.topics with _ | t0
      · simp [hl] at hr
      · simp only [hl] at hr
        split at hr
        · simp at hr
        · obtain ⟨-, rfl⟩ := by simpa using hr
          simp only at ht
          rw [lookup_upsert, if_pos rfl] at ht
          cases ht
          simp [Topic.addSubscriber, newSubscriberSession, lookup_upsert]
    · simp [hr] at hst
  · intro q pkt hb
    unfold subEnqueue
    split
    · rename_i hlt
      simpa using hlt
    · simp only [chanDropOldest]
      split
      · rename_i hlt
        simpa using hlt
      · simp only
        have := List.length_tail q.buf
        simpa using by omega

/-- Witness for C6: the subscriber registered on `mgrLive` has queue
capacity 256, and enqueuing into a full two-slot queue does not grow it. -/
theorem onPlay_queue_capacity_witness :
    lookupKey "s1" topicLiveSub.subscribers = some (newSubscriberSession "s1" 256) ∧
    (subEnqueue qFull pkt0).2.buf.length ≤ qFull.cap := by
  refine ⟨?_, onPlay_queue_capacity.2.2.2 qFull pkt0 (by decide)⟩
  exact onPlay_queue_capacity.1 startHandler mgrLive "s1" "/t" (by decide) topicLiveSub
    (by decide)

/-! ## Claim C7 — topic-name validation -/

/-- Counterexample to C7 as stated: a PLAY request for the invalid topic
name `bad name` is answered with 503 (subscriber registration fails because
no such topic exists), not 400 — `OnPlay` performs no name validation. -/
theorem onPlay_invalid_name_returns_503 :
    validTopicName "bad name" = false ∧
    (onPlay startHandler (newManager cfgS1) "s1" "/bad name").statusCode = 503 ∧
    (onPlay startHandler (newManager cfgS1) "s1" "/bad name").statusCode ≠ 400 := by
  decide

/-- C7 (amended): `OnAnnounce` validates the topic name against
`^[A-Za-z0-9_-]+$` and answers 400 for invalid names, leaving all state
untouched.  `OnPlay` performs no validation: whenever the requested topic is
absent from the manager (as every invalid name is, since only `OnAnnounce`
creates topics), it answers 503. -/
theorem topic_name_validation_spec :
    (∀ (h : Handler) (m : Manager) (sid path : String) (st : Nat),
      validTopicName (trimLeadingSlash path) = false →
      onAnnounce h m sid path st = ⟨400, h, m⟩) ∧
    (∀ (h : Handler) (m : Manager) (sid path : String),
      lookupKey (trimLeadingSlash path) m.topics = none →
      (onPlay h m sid path).statusCode = 503) := by
  constructor
  · intro h m sid path st hv
    simp [onAnnounce, hv]
  · intro h m sid path hl
    simp [onPlay, registerSubscriber, hl]

/-- Witness for C7: the invalid name `bad name` gets 400 on ANNOUNCE with
unchanged state, and 503 on PLAY. -/
theorem topic_name_validation_spec_witness :
    onAnnounce startHandler (newManager cfgS1) "s1" "/bad name" 0
      = ⟨400, startHandler, newManager cfgS1⟩ ∧
    (onPlay startHandler (newManager cfgS1) "s1" "/bad name").statusCode = 503 :=
  ⟨topic_name_validation_spec.1 startHandler (newManager cfgS1) "s1" "/bad name" 0 (by decide),
   topic_name_validation_spec.2 startHandler (newManager cfgS1) "s1" "/bad name" (by decide)⟩

/-! ## Claim C8 — 461 Unsupported Transport -/

/-- Counterexample to C8 as stated: in the cluster `srv1,srv2` (self
`srv1`), topic `remote` is owned by the remote node `srv2`, yet a SETUP
negotiating UDP for it is answered 404 (no local stream), not 461 — the
handler never consults the transport or the cluster. -/
theorem onSetup_udp_remote_returns_404 :
    ((newFromCSV (srv1B ++ commaByte :: srv2B) srv1B).map fun c => owner c remoteB)
      = some srv2B ∧
    ((newFromCSV (srv1B ++ commaByte :: srv2B) srv1B).map fun c => isSelf c srv2B)
      = some false ∧
    onSetup startHandler (newManager cfgS1) "/remote" true = 404 ∧
    (404 : Nat) ≠ 461 := by
  decide

/-- C8 (amended): `OnSetup` answers 200 when the topic has a local stream
and 404 otherwise — in particular it never returns 461, for any transport
and any ownership situation. -/
theorem onSetup_never_461 (h : Handler) (m : Manager) (path : String) (isUDP : Bool) :
    onSetup h m path isUDP = 200 ∨ onSetup h m path isUDP = 404 := by
  unfold onSetup
  rcases hs : getTopicStream m (trimLeadingSlash path) with _ | st <;> simp [hs]

/-! ## Claim C9 — even/odd port pairs in the allocator -/

theorem reserveScan_some {a : Allocator} {bindOk : Nat → Bool} :
    ∀ {fuel p p' : Nat} {a' : Allocator}, p % 2 = 0 →
      reserveScan a bindOk fuel p = some (p', a') →
      p' % 2 = 0 ∧ p' ∉ a.reserved ∧ bindOk p' = true ∧ bindOk (p' + 1) = true ∧
        a' = { a with reserved := p' :: (p' + 1) :: a.reserved } := by
  intro fuel
  induction fuel with
  | zero =>
    intro p p' a' hp h
    simp [reserveScan] at h
  | succ fuel ih =>
    intro p p' a' hp h
    unfold reserveScan at h
    split at h
    · exact absurd h (by simp)
    · split at h
      · exact ih (by omega) h
      · rename_i hnmem
        split at h
        · rename_i hbind
          rw [Bool.and_eq_true] at hbind
          obtain ⟨rfl, rfl⟩ := by simpa using h
          exact ⟨hp, hnmem, hbind.1, hbind.2, rfl⟩
        · exact ih (by omega) h

theorem paired_reserve {a : Allocator} {bindOk : Nat → Bool} {p : Nat} {a' : Allocator}
    (hstart : a.start % 2 = 0) (hres : reservePair a bindOk = some (p, a'))
    (hp : PairedReserved a.reserved) :
    PairedReserved a'.reserved ∧ a'.start = a.start := by
  obtain ⟨hev, -, -, -, rfl⟩ := reserveScan_some hstart hres
  refine ⟨?_, rfl⟩
  intro q hq
  simp only [List.mem_cons] at hq
  rcases hq with rfl | rfl | hq
  · exact ⟨fun _ => by simp, fun hodd => by omega⟩
  · refine ⟨fun hev2 => by omega, fun _ => ⟨by omega, ?_⟩⟩
    simp [Nat.add_sub_cancel]
  · obtain ⟨h1, h2⟩ := hp q hq
    exact ⟨fun he => by simp [h1 he], fun ho => ⟨(h2 ho).1, by simp [(h2 ho).2]⟩⟩

theorem paired_release {a : Allocator} {p : Nat} (hp : PairedReserved a.reserved)
    (hev : p % 2 = 0) : PairedReserved (releasePair a p).reserved := by
  intro q hq
  rw [releasePair] at hq
  simp only [List.mem_filter] at hq
  obtain ⟨hmem, hpr⟩ := hq
  have hne : q ≠ p ∧ q ≠ p + 1 := by
    constructor <;> intro hcon <;> simp [hcon] at hpr
  obtain ⟨hq1, hq2⟩ := hne
  obtain ⟨h1, h2⟩ := hp q hmem
  constructor
  · intro he
    have hne1 : q + 1 ≠ p := by omega
    have hne2 : q + 1 ≠ p + 1 := by omega
    simp only [releasePair, List.mem_filter]
    exact ⟨h1 he, by simp [hne1, hne2]⟩
  · intro ho
    obtain ⟨hq0, hqm⟩ := h2 ho
    have hne1 : q - 1 ≠ p := by omega
    have hne2 : q - 1 ≠ p + 1 := by omega
    refine ⟨hq0, ?_⟩
    simp only [releasePair, List.mem_filter]
    exact ⟨hqm, by simp [hne1, hne2]⟩

/-- Start-parity plus pairing, the inductive invariant of allocator traces. -/
def AllocInv (a : Allocator) : Prop :=
  a.start % 2 = 0 ∧ PairedReserved a.reserved

theorem allocInv_step {a : Allocator} {op : AllocOp} (h : AllocInv a)
    (hop : goodAllocOp op = true) : AllocInv (allocStep a op) := by
  obtain ⟨hstart, hp⟩ := h
  cases op with
  | reserve bindOk =>
    simp only [allocStep]
    rcases hres : reservePair a bindOk with _ | r
    · exact ⟨hstart, hp⟩
    · obtain ⟨p, a'⟩ := r
      obtain ⟨hp', hs'⟩ := paired_reserve hstart hres hp
      exact ⟨hs' ▸ hstart, hp'⟩
  | release p =>
    have hev : p % 2 = 0 := by simpa [goodAllocOp] using hop
    exact ⟨hstart, paired_release hp hev⟩

theorem allocInv_run :
    ∀ (ops : List AllocOp) (a : Allocator), AllocInv a → ops.all goodAllocOp = true →
      AllocInv (ops.foldl allocStep a)
  | [], _, h, _ => h
  | op :: ops, a, h, hall => by
    rw [List.all_cons, Bool.and_eq_true] at hall
    exact allocInv_run ops (allocStep a op) (allocInv_step h hall.1) hall.2

/-- C9: starting from `NewAllocator` and along any sequence of
`ReservePair` calls (with arbitrary bind outcomes) and releases of reserved
bases, the reserved set stays paired: an even member's odd partner `p+1` is
present exactly when `p` is, and an odd member is always the partner of the
even base below it.  Moreover a successful `ReservePair` returns an even,
previously free base whose two ports both bound successfully and are
reserved together — a failed bind reserves neither, since only the
success branch stores the pair. -/
theorem allocator_even_pairing (start endP : Nat) (a0 : Allocator) (ops : List AllocOp)
    (h0 : newAllocator start endP = some a0) (hops : ops.all goodAllocOp = true) :
    PairedReserved (ops.foldl allocStep a0).reserved ∧
    (∀ (a : Allocator) (bindOk : Nat → Bool) (p : Nat) (a' : Allocator),
      a.start % 2 = 0 → reservePair a bindOk = some (p, a') →
      p % 2 = 0 ∧ p ∉ a.reserved ∧ bindOk p = true ∧ bindOk (p + 1) = true ∧
        a' = { a with reserved := p :: (p + 1) :: a.reserved }) := by
  have hinv0 : AllocInv a0 := by
    unfold newAllocator at h0
    split at h0
    · exact absurd h0 (by simp)
    · obtain rfl := by simpa using h0
      constructor
      · simp only
        split <;> omega
      · intro q hq
        simp at hq
  refine ⟨(allocInv_run ops a0 hinv0 hops).2, ?_⟩
  intro a bindOk p a' hstart hres
  exact reserveScan_some hstart hres

/-- Witness for C9: after two successful reservations on `[41002, 41010]`,
the base 41002 is even and its partner 41003 is reserved with it. -/
theorem allocator_even_pairing_witness :
    (41002 : Nat) % 2 = 0 ∧ (41003 : Nat) ∈ (allocOpsW.foldl allocStep allocW).reserved := by
  have h := allocator_even_pairing 41001 41010 allocW allocOpsW (by decide) (by decide)
  exact ⟨by decide, (h.1 41002 (by decide)).1 (by decide)⟩

/-! ## Claim C5 — rendezvous-hash owner selection -/

theorem firstArgmax_ne_nil (sc : List Nat → Nat) :
    ∀ (cands : List (List Nat)), (∀ n ∈ cands, n ≠ []) → cands ≠ [] →
      firstArgmax sc cands ≠ []
  | [], _, hc => absurd rfl hc
  | n :: rest, hne, _ => by
    have hn : n ≠ [] := hne n (List.mem_cons_self _ _)
    simp only [firstArgmax]
    by_cases hr : firstArgmax sc rest = []
    · simpa [hr] using hn
    · simp only [if_neg hr]
      split
      · exact hr
      · exact hn

theorem firstArgmax_mem (sc : List Nat → Nat) :
    ∀ (cands : List (List Nat)), (∀ n ∈ cands, n ≠ []) → cands ≠ [] →
      firstArgmax sc cands ∈ cands
  | [], _, hc => absurd rfl hc
  | n :: rest, hne, _ => by
    simp only [firstArgmax]
    by_cases hr : firstArgmax sc rest = []
    · simp [hr]
    · have hrest : rest ≠ [] := by
        intro h
        rw [h] at hr
        exact hr rfl
      have hmem := firstArgmax_mem sc rest
        (fun x hx => hne x (List.mem_cons_of_mem _ hx)) hrest
      simp only [if_neg hr]
      split
      · exact List.mem_cons_of_mem _ hmem
      · exact List.mem_cons_self _ _

theorem firstArgmax_le (sc : List Nat → Nat) :
    ∀ (cands : List (List Nat)), (∀ n ∈ cands, n ≠ []) →
      ∀ x ∈ cands, sc x ≤ sc (firstArgmax sc cands)
  | [], _, x, hx => absurd hx (by simp)
  | n :: rest, hne, x, hx => by
    simp only [firstArgmax]
    by_cases hr : firstArgmax sc rest = []
    · have hrest : rest = [] := by
        by_contra hcon
        exact firstArgmax_ne_nil sc rest
          (fun y hy => hne y (List.mem_cons_of_mem _ hy)) hcon hr
      subst hrest
      simp only [List.mem_singleton] at hx
      subst hx
      simp [hr]
    · rcases List.mem_cons.mp hx with rfl | hx'
      · simp only [if_neg hr]
        split
        · rename_i hlt
          exact le_of_lt hlt
        · exact le_refl _
      · have hle := firstArgmax_le sc rest
          (fun y hy => hne y (List.mem_cons_of_mem _ hy)) x hx'
        simp only [if_neg hr]
        split
        · exact hle
        · rename_i hnlt
          exact hle.trans (Nat.not_lt.mp hnlt)

theorem ownerLoop_acc (dr : List (List Nat)) (topic : List Nat) :
    ∀ (nodes : List (List Nat)) (best : List Nat) (bs : Nat),
      best ≠ [] → (∀ n ∈ nodes, n ≠ []) →
      ownerLoop dr topic nodes best bs =
        accResult (score topic) (nodes.filter fun n => !decide (n ∈ dr)) best bs
  | [], best, bs, _, _ => by
    simp [ownerLoop, accResult, firstArgmax]
  | n :: rest, best, bs, hb, hne => by
    have hn : n ≠ [] := hne n (List.mem_cons_self _ _)
    have hne' : ∀ x ∈ rest, x ≠ [] := fun x hx => hne x (List.mem_cons_of_mem _ hx)
    by_cases hdr : n ∈ dr
    · simp only [ownerLoop, if_pos hdr]
      rw [ownerLoop_acc dr topic rest best bs hb hne']
      simp [List.filter_cons, hdr]
    · simp only [ownerLoop, if_neg hdr]
      by_cases hlt : bs < xxh64 (n ++ barByte :: topic)
      · rw [if_pos (by simp [hlt])]
        rw [ownerLoop_acc dr topic rest n (xxh64 (n ++ barByte :: topic)) hn hne']
        simp only [accResult, List.filter_cons, hdr]
        by_cases hfr : firstArgmax (score topic) (rest.filter fun x => !decide (x ∈ dr)) = []
        · simp [firstArgmax, score, hfr, hn, hlt]
        · by_cases hlt2 : xxh64 (n ++ barByte :: topic)
              < xxh64 (firstArgmax (score topic) (rest.filter fun x => !decide (x ∈ dr))
                  ++ barByte :: topic)
          · have hbs : bs < xxh64 (firstArgmax (score topic)
                (rest.filter fun x => !decide (x ∈ dr)) ++ barByte :: topic) :=
              lt_trans hlt hlt2
            simp [firstArgmax, score, hfr, hlt2, hbs]
          · simp [firstArgmax, score, hfr, hlt2, hn, hlt]
      · rw [if_neg (by simp [hb, hlt])]
        rw [ownerLoop_acc dr topic rest best bs hb hne']
        simp only [accResult, List.filter_cons, hdr]
        by_cases hfr : firstArgmax (score topic) (rest.filter fun x => !decide (x ∈ dr)) = []
        · simp [firstArgmax, score, hfr, hlt]
        · by_cases hlt2 : xxh64 (n ++ barByte :: topic)
              < xxh64 (firstArgmax (score topic) (rest.filter fun x => !decide (x ∈ dr))
                  ++ barByte :: topic)
          · simp [firstArgmax, score, hfr, hlt2]
          · have hnbs : ¬ bs < xxh64 (firstArgmax (score topic)
                (rest.filter fun x => !decide (x ∈ dr)) ++ barByte :: topic) := by
              intro hcon
              exact hlt (lt_of_lt_of_le hcon (Nat.not_lt.mp hlt2))
            simp [firstArgmax, score, hfr, hlt2, hlt, hnbs]

theorem ownerLoop_start (dr : List (List Nat)) (topic : List Nat) :
    ∀ (nodes : List (List Nat)), (∀ n ∈ nodes, n ≠ []) →
      ownerLoop dr topic nodes [] 0 =
        firstArgmax (score topic) (nodes.filter fun n => !decide (n ∈ dr))
  | [], _ => by simp [ownerLoop, firstArgmax]
  | n :: rest, hne => by
    have hn : n ≠ [] := hne n (List.mem_cons_self _ _)
    have hne' : ∀ x ∈ rest, x ≠ [] := fun x hx => hne x (List.mem_cons_of_mem _ hx)
    by_cases hdr : n ∈ dr
    · simp only [ownerLoop, if_pos hdr]
      rw [ownerLoop_start dr topic rest hne']
      simp [List.filter_cons, hdr]
    · simp only [ownerLoop, if_neg hdr]
      rw [if_pos (by simp)]
      rw [ownerLoop_acc dr topic rest n (xxh64 (n ++ barByte :: topic)) hn hne']
      simp only [accResult, List.filter_cons, hdr]
      by_cases hfr : firstArgmax (score topic) (rest.filter fun x => !decide (x ∈ dr)) = []
      · simp [firstArgmax, score, hfr]
      · by_cases hlt2 : xxh64 (n ++ barByte :: topic)
            < xxh64 (firstArgmax (score topic) (rest.filter fun x => !decide (x ∈ dr))
                ++ barByte :: topic)
        · simp [firstArgmax, score, hfr, hlt2]
        · simp [firstArgmax, score, hfr, hlt2]

/-- Counterexample to C5 as stated: the two distinct node names
`RelayNodeAlpha1` and `D_JVCKfmuYFVYqn` have colliding xxHash64 rendezvous
scores for the topic `topicone`.  The cluster built from
`"RelayNodeAlpha1,D_JVCKfmuYFVYqn"` resolves the owner to `RelayNodeAlpha1`,
the one built from `"D_JVCKfmuYFVYqn,RelayNodeAlpha1"` to `D_JVCKfmuYFVYqn`:
the result depends on the configured list order, not only on the member set,
and the tie is broken by list position, not lexicographically (the
lexicographically smaller name, `D_JVCKfmuYFVYqn` — leading byte 68 < 82 —
loses in the first cluster). -/
theorem owner_tie_depends_on_order :
    score topicOne relayNode1 = score topicOne relayNode2 ∧
    relayNode1 ≠ relayNode2 ∧
    relayNode1.head? = some 82 ∧ relayNode2.head? = some 68 ∧ (68 : Nat) < 82 ∧
    newFromCSV csv12 relayNode1 = some clusterC12 ∧
    newFromCSV csv21 relayNode1 = some clusterC21 ∧
    owner clusterC12 topicOne = relayNode1 ∧
    owner clusterC21 topicOne = relayNode2 := by
  decide

/-- C5 (amended): `Owner` equals the *first* non-draining configured node
attaining the maximal 64-bit score `xxhash64(n ++ "|" ++ topic)` — a pure
function of the ordered node list, the draining flags and the topic, but not
of the member set alone (on score ties the configured order decides).  It
returns the empty name when no non-draining node exists, and otherwise a
non-draining member whose score no candidate exceeds. -/
theorem owner_firstArgmax_spec (c : Cluster) (topic : List Nat)
    (hne : ∀ n ∈ c.nodes, n ≠ []) :
    owner c topic = firstArgmax (score topic) (nonDraining c) ∧
    (nonDraining c = [] → owner c topic = []) ∧
    (nonDraining c ≠ [] →
      owner c topic ∈ nonDraining c ∧
      ∀ n ∈ nonDraining c, score topic n ≤ score topic (owner c topic)) := by
  have hnd : ∀ n ∈ nonDraining c, n ≠ [] := by
    intro n hn
    exact hne n (List.mem_filter.mp hn).1
  have heq : owner c topic = firstArgmax (score topic) (nonDraining c) :=
    ownerLoop_start c.draining topic c.nodes hne
  refine ⟨heq, ?_, ?_⟩
  · intro h0
    rw [heq, h0]
    rfl
  · intro hne0
    rw [heq]
    exact ⟨firstArgmax_mem _ (nonDraining c) hnd hne0,
           fun n hn => firstArgmax_le _ (nonDraining c) hnd n hn⟩

/-- Witness for C5, on the collision cluster: the computed owner is the
first argmax over the non-draining candidates and is itself a candidate. -/
theorem owner_firstArgmax_spec_witness :
    owner clusterC12 topicOne = firstArgmax (score topicOne) (nonDraining clusterC12) ∧
    owner clusterC12 topicOne ∈ nonDraining clusterC12 := by
  have h := owner_firstArgmax_spec clusterC12 topicOne (by decide)
  exact ⟨h.1, (h.2.2 (by decide)).1⟩

end Rtsper
